import Mathlib

/-!
Verification development for `propnet/core/models.py`: the `Model`
evaluation protocol (`Model.evaluate` / `Model.__init__`), the
`EquationModel.plug_in` solving loop, and the `PyModel` wrapper.

Python dicts are embedded as association lists in insertion order
(`dictLookup` returns the first binding, `dictInsert` replaces in place or
appends, matching `d[k] = v`).  Machine floats are modelled as `ℚ`.  The
external pint unit system is modelled by linear units: a quantity carries a
magnitude and a `UnitT` (a dimension name plus a positive rational scale
factor); `.to` conversion succeeds exactly between units of one dimension
and rescales the magnitude, raising `DimensionalityError` otherwise.
Python exceptions escaping a function are modelled with `Except`.
-/

/-- A physical unit of the external unit registry (`propnet.ureg`):
a dimension plus the linear scale of this unit in the dimension's base unit. -/
structure UnitT where
  dim : String
  scale : ℚ
deriving DecidableEq, Repr

/-- A value in the caller-supplied `symbol_value_dict`: either a bare number
or a unit-carrying `ureg.Quantity`. -/
inductive Value where
  | raw (x : ℚ)
  | qty (mag : ℚ) (u : UnitT)
deriving DecidableEq, Repr

/-- A value of the dictionary returned by `Model.evaluate`: the boolean
`successful` flag, a diagnostic message string, a bare number as returned by
`plug_in`, or a unit-wrapped quantity. -/
inductive RVal where
  | b (x : Bool)
  | s (x : String)
  | num (x : ℚ)
  | q (mag : ℚ) (u : UnitT)
deriving DecidableEq, Repr

/-- A Python exception escaping `Model.evaluate` (not caught by its
`try/except` around `plug_in`): a `KeyError` from direct dict indexing, or a
pint `DimensionalityError` from an incompatible `.to` conversion. -/
inductive PyErr where
  | keyError (k : String)
  | dimensionalityError
deriving DecidableEq, Repr

/-- One entry of `Model.connections`:
`{"inputs": [symbols], "outputs": [symbols]}`. -/
structure Conn where
  inputs : List String
  outputs : List String
deriving DecidableEq, Repr

/-- First binding of key `k` in a dict, `d[k]` / `d.get(k)`. -/
def dictLookup {α : Type} : List (String × α) → String → Option α
  | [], _ => none
  | (k', v') :: rest, k => if k' = k then some v' else dictLookup rest k

/-- `d[k] = v` on a Python dict: replace the value in place if the key is
present, otherwise append the new binding. -/
def dictInsert {α : Type} : List (String × α) → String → α → List (String × α)
  | [], k, v => [(k, v)]
  | (k', v') :: rest, k, v =>
    if k' = k then (k, v) :: rest else (k', v') :: dictInsert rest k v

/-- Build up a dict by inserting the given bindings in order (the dict
comprehensions of `models.py`: a later binding of a key overwrites an
earlier one). -/
def dictAddAll {α : Type} (acc : List (String × α)) : List (String × α) → List (String × α)
  | [] => acc
  | kv :: rest => dictAddAll (dictInsert acc kv.1 kv.2) rest

/-- The model abstraction of `propnet.core.models.Model`.  `symbol_map`
and `unit_map` use `[]` for Python's falsy `None`/`{}`.  The abstract
`plug_in` method is a field; a raised exception is `Except.error` carrying
`str(e)`. -/
structure Model where
  name : String
  connections : List Conn
  symbol_map : List (String × String)
  unit_map : List (String × UnitT)
  plug_in : List (String × ℚ) → Except String (List (String × ℚ))

/-- Key rewriting of `Model.__init__`:
`self.symbol_map.get(symbol) or symbol` (an absent or falsy mapping falls
back to the original key; the only falsy string is `""`). -/
def remapKey (sm : List (String × String)) (k : String) : String :=
  match dictLookup sm k with
  | some m => if m = "" then k else m
  | none => k

/-- The construction-time unit-map rewrite of `Model.__init__`:
`{self.symbol_map.get(symbol) or symbol: value for symbol, value in self.unit_map.items()}`. -/
def remapUnitMapKeys (sm : List (String × String)) (um : List (String × UnitT)) :
    List (String × UnitT) :=
  dictAddAll [] (um.map (fun kv => (remapKey sm kv.1, kv.2)))

/-- `Model.__init__`: stores the fields and, when both `symbol_map` and
`unit_map` are truthy, rewrites every unit-map key through the symbol map
once, at construction. -/
def Model.init (name : String) (connections : List Conn)
    (symbol_map : List (String × String)) (unit_map : List (String × UnitT))
    (plug_in : List (String × ℚ) → Except String (List (String × ℚ))) : Model :=
  ⟨name, connections, symbol_map,
    if symbol_map ≠ [] ∧ unit_map ≠ [] then remapUnitMapKeys symbol_map unit_map
    else unit_map,
    plug_in⟩

/-- `PyModel.__init__`: wraps the supplied callable as `plug_in` and calls
`Model.__init__` without a `unit_map` argument, so the unit map is `{}`. -/
def PyModel.init (name : String) (connections : List Conn)
    (plug_in : List (String × ℚ) → Except String (List (String × ℚ)))
    (symbol_map : List (String × String)) : Model :=
  Model.init name connections symbol_map [] plug_in

/-- The mapped pairs of the remapping comprehension
`{self.symbol_map[symbol]: value for symbol, value in symbol_value_dict.items()}`;
`self.symbol_map[symbol]` raises `KeyError` at the first key without a
mapping. -/
def remapPairs {α : Type} (sm : List (String × String)) :
    List (String × α) → Except PyErr (List (String × α))
  | [] => .ok []
  | kv :: rest =>
    match dictLookup sm kv.1 with
    | none => .error (PyErr.keyError kv.1)
    | some k2 => (remapPairs sm rest).map (fun r => (k2, kv.2) :: r)

/-- The full remapping comprehension: compute the mapped pairs in order and
build a fresh dict from them. -/
def remapDict {α : Type} (sm : List (String × String)) (svd : List (String × α)) :
    Except PyErr (List (String × α)) :=
  (remapPairs sm svd).map (dictAddAll [])

/-- The `if self.symbol_map:` guard of `evaluate`: remap only when the
symbol map is truthy, otherwise keep the caller's dict. -/
def postRemap (m : Model) (svd : List (String × Value)) :
    Except PyErr (List (String × Value)) :=
  match m.symbol_map with
  | [] => .ok svd
  | _ :: _ => remapDict m.symbol_map svd

/-- Unit stripping of one entry of the value dict: a `ureg.Quantity` is
converted to the unit-map unit when the symbol has one (raising on a
dimension mismatch) and replaced by its magnitude; bare numbers pass
through. -/
def stripValue (um : List (String × UnitT)) (k : String) (v : Value) : Except PyErr ℚ :=
  match v with
  | .raw x => .ok x
  | .qty mag u =>
    match dictLookup um k with
    | some target =>
      if u.dim = target.dim then .ok (mag * u.scale / target.scale)
      else .error PyErr.dimensionalityError
    | none => .ok mag

/-- The unit-stripping loop of `evaluate` as the dict it produces
(successfully stripping every entry in order). -/
def stripDict (um : List (String × UnitT)) :
    List (String × Value) → Except PyErr (List (String × ℚ))
  | [] => .ok []
  | kv :: rest =>
    match stripValue um kv.1 kv.2 with
    | .error e => .error e
    | .ok x =>
      match stripDict um rest with
      | .error e => .error e
      | .ok r => .ok ((kv.1, x) :: r)

/-- Remapping followed by unit stripping: the dict handed to `plug_in`. -/
def preprocess (m : Model) (svd : List (String × Value)) :
    Except PyErr (List (String × ℚ)) :=
  match postRemap m svd with
  | .error e => .error e
  | .ok svd1 => stripDict m.unit_map svd1

/-- Equality of Python sets of symbol names, `set(a) == set(b)`. -/
def sameKeySet (a b : List String) : Prop :=
  (∀ s ∈ a, s ∈ b) ∧ (∀ s ∈ b, s ∈ a)

instance sameKeySetDec (a b : List String) : Decidable (sameKeySet a b) :=
  inferInstanceAs (Decidable (_ ∧ _))

/-- The input-set check of `evaluate`:
`any(set(input_set) == available_symbols for input_set in self.input_sets)`. -/
def inputMatches (m : Model) (avail : List String) : Bool :=
  m.connections.any (fun c => decide (sameKeySet c.inputs avail))

/-- Rendering of the available-symbols set inside the diagnostic message
(Python renders the `set` object; element order is modelled as key order). -/
def renderKeys (l : List String) : String :=
  "\x7b" ++ String.intercalate ", " l ++ "\x7d"

/-- The diagnostic message of the unmatched-input failure:
`"The {} model cannot generate any outputs for these inputs: {}"`. -/
def failMessage (name : String) (avail : List String) : String :=
  "The " ++ name ++ " model cannot generate any outputs for these inputs: " ++
    renderKeys avail

/-- A structured failure record `{'successful': False, 'message': msg}`. -/
def failRecord (msg : String) : List (String × RVal) :=
  [("successful", RVal.b false), ("message", RVal.s msg)]

/-- Unit re-attachment of one output entry:
`out[key] = ureg.Quantity(out[key], self.unit_map[key])`, skipping the
`successful` key; `self.unit_map[key]` raises `KeyError` when absent.  (On
`evaluate`'s success path every non-`successful` value is a bare number
`RVal.num` produced by `plug_in`; other value shapes pass through after the
unit lookup.) -/
def wrapOutputs (um : List (String × UnitT)) :
    List (String × RVal) → Except PyErr (List (String × RVal))
  | [] => .ok []
  | kv :: rest =>
    if kv.1 = "successful" then
      (wrapOutputs um rest).map (fun r => kv :: r)
    else
      match dictLookup um kv.1 with
      | none => .error (PyErr.keyError kv.1)
      | some u =>
        (wrapOutputs um rest).map (fun r =>
          (kv.1,
            match kv.2 with
            | RVal.num x => RVal.q x u
            | v => v) :: r)

/-- `Model.evaluate`: remap symbols, strip units, check the available symbol
set against every connection's input set, run `plug_in` inside the failure
boundary, set `successful = True` and re-attach units to the outputs. -/
def evaluate (m : Model) (svd : List (String × Value)) :
    Except PyErr (List (String × RVal)) :=
  match preprocess m svd with
  | .error e => .error e
  | .ok svd2 =>
    if inputMatches m (svd2.map Prod.fst) then
      match m.plug_in svd2 with
      | .error e => .ok (failRecord e)
      | .ok out =>
        wrapOutputs m.unit_map
          (dictInsert (out.map (fun kv => (kv.1, RVal.num kv.2)))
            "successful" (RVal.b true))
    else
      .ok (failRecord (failMessage m.name (svd2.map Prod.fst)))

/-- The unit-stripping loop as the mutation it performs on the dict object
it iterates over: entries are replaced by bare magnitudes in order until a
conversion raises, which aborts the loop and leaves later entries
untouched. -/
def stripInPlace (um : List (String × UnitT)) :
    List (String × Value) → List (String × Value)
  | [] => []
  | (k, v) :: rest =>
    match stripValue um k v with
    | .ok x => (k, Value.raw x) :: stripInPlace um rest
    | .error _ => (k, v) :: rest

/-- The caller-visible state of the argument dict after `evaluate` returns:
when `symbol_map` is falsy the stripping loop mutates the caller's own dict,
while a truthy `symbol_map` makes the remapping comprehension build a fresh
dict and every later mutation lands on that fresh dict. -/
def callerAfter (m : Model) (svd : List (String × Value)) : List (String × Value) :=
  match m.symbol_map with
  | [] => stripInPlace m.unit_map svd
  | _ :: _ => svd

/-- Whether an evaluation result value is the quantity wrap of some
magnitude in exactly the unit the unit map declares for the key. -/
def wrappedIn (um : List (String × UnitT)) (k : String) (v : RVal) : Bool :=
  match dictLookup um k, v with
  | some u, RVal.q _ u2 => decide (u = u2)
  | _, _ => false

/-- Whether an optional result value is present and a boolean. -/
def isBoolVal : Option RVal → Bool
  | some (RVal.b _) => true
  | _ => false

/-- Whether a computation raised a `KeyError`. -/
def isKeyError {α : Type} : Except PyErr α → Bool
  | .error (PyErr.keyError _) => true
  | _ => false

/-- Whether a computation returned normally. -/
def exOk {ε α : Type} : Except ε α → Bool
  | .ok _ => true
  | .error _ => false

instance exceptDecEq {ε α : Type} [DecidableEq ε] [DecidableEq α] :
    DecidableEq (Except ε α) := fun x y =>
  match x, y with
  | .ok a, .ok b =>
    if h : a = b then isTrue (by rw [h]) else isFalse (fun he => h (Except.ok.inj he))
  | .error a, .error b =>
    if h : a = b then isTrue (by rw [h]) else isFalse (fun he => h (Except.error.inj he))
  | .ok _, .error _ => isFalse (fun he => Except.noConfusion he)
  | .error _, .ok _ => isFalse (fun he => Except.noConfusion he)

/-- A sympy expression as it appears in `EquationModel.plug_in` after
`parse_expr`: a numeric constant, a free symbol, or an arithmetic node. -/
inductive Expr where
  | const (x : ℚ)
  | var (s : String)
  | add (a b : Expr)
  | mul (a b : Expr)
  | sub (a b : Expr)
deriving DecidableEq, Repr

/-- `eqn.subs(symbol_value_dict)`: replace every symbol bound in the dict by
its numeric value. -/
def subsExpr (svd : List (String × ℚ)) : Expr → Expr
  | .const x => .const x
  | .var s =>
    match dictLookup svd s with
    | some x => .const x
    | none => .var s
  | .add a b => .add (subsExpr svd a) (subsExpr svd b)
  | .mul a b => .mul (subsExpr svd a) (subsExpr svd b)
  | .sub a b => .sub (subsExpr svd a) (subsExpr svd b)

/-- `eqn.free_symbols` as a list (with repetitions). -/
def freeSyms : Expr → List String
  | .const _ => []
  | .var s => [s]
  | .add a b => freeSyms a ++ freeSyms b
  | .mul a b => freeSyms a ++ freeSyms b
  | .sub a b => freeSyms a ++ freeSyms b

/-- Add one element to a Python set, keeping first-occurrence order. -/
def listInsertU (a : List String) (s : String) : List String :=
  if s ∈ a then a else a ++ [s]

/-- `possible_outputs = possible_outputs.union(eqn.free_symbols)` over all
substituted equations (a Python set; its iteration order is modelled as
first-occurrence order, which only affects output dict order). -/
def eqCandidates (eqns : List Expr) : List String :=
  eqns.foldl (fun acc e => (freeSyms e).foldl listInsertU acc) []

/-- One component of a solution tuple returned by `sp.nonlinsolve`: a
numeric solution (already evaluated by `float(sp.N(·))`) or sympy's
`EmptySet` marker. -/
inductive SymSol where
  | val (x : ℚ)
  | emptySet
deriving DecidableEq, Repr

/-- `list(solutions)[0][0]` when it exists: the first component of the first
solution tuple. -/
def firstSol (sols : List (List SymSol)) : Option SymSol :=
  match sols with
  | [] => none
  | tup :: _ =>
    match tup with
    | [] => none
    | s :: _ => some s

/-- The per-candidate solving loop of `EquationModel.plug_in`:
`solutions = sp.nonlinsolve(eqns, possible_output)`, then
`solution = list(solutions)[0][0]` (an `IndexError` when the solution set or
its first tuple is empty), then
`if not isinstance(solution, sp.EmptySet): outputs[...] = float(sp.N(solution))`. -/
def eqSolveLoop (solver : List Expr → String → List (List SymSol)) (eqns : List Expr)
    (acc : List (String × ℚ)) : List String → Except String (List (String × ℚ))
  | [] => .ok acc
  | x :: rest =>
    match solver eqns x with
    | [] => .error "list index out of range"
    | tup :: _ =>
      match tup with
      | [] => .error "tuple index out of range"
      | sol :: _ =>
        match sol with
        | .emptySet => eqSolveLoop solver eqns acc rest
        | .val v => eqSolveLoop solver eqns (dictInsert acc x v) rest

/-- `EquationModel.plug_in`: substitute the inputs into every parsed
equation, collect the remaining free symbols as candidate outputs, and solve
the substituted system for each candidate.  `sp.nonlinsolve` is the external
sympy collaborator, taken as an explicit `solver` argument returning the
list of solution tuples. -/
def eqPlugIn (solver : List Expr → String → List (List SymSol)) (equations : List Expr)
    (svd : List (String × ℚ)) : Except String (List (String × ℚ)) :=
  let eqns := equations.map (subsExpr svd)
  eqSolveLoop solver eqns [] (eqCandidates eqns)

/-- `EquationModel.__init__`: stores the equations and delegates to
`Model.__init__`; `plug_in` is the solving loop over those equations. -/
def EquationModel.init (name : String) (equations : List Expr) (connections : List Conn)
    (symbol_map : List (String × String)) (unit_map : List (String × UnitT))
    (solver : List Expr → String → List (List SymSol)) : Model :=
  Model.init name connections symbol_map unit_map (eqPlugIn solver equations)

/-- A base unit used by the concrete test fixtures below. -/
def U0 : UnitT := ⟨"temperature", 1⟩

/-- The metre: base unit of the length dimension of the fixtures. -/
def U2 : UnitT := ⟨"length", 1⟩

/-- The kilometre: a thousand metres. -/
def U1 : UnitT := ⟨"length", 1000⟩

/-- Fixture for the C3 witness: a model whose `plug_in` always raises. -/
def mW3 : Model :=
  ⟨"w3", [⟨["a"], ["y"]⟩], [], [("y", U2)], fun _ => Except.error "singular matrix"⟩

/-- Fixture for the C2 witness: the only connection needs both `a` and `b`. -/
def mW2 : Model :=
  ⟨"w2", [⟨["a", "b"], ["y"]⟩], [], [("y", U2)], fun _ => Except.ok []⟩

/-- Fixture for the C9 witness: `plug_in` returns a numeric `successful`
key of its own, which `evaluate` must overwrite with `True`. -/
def mW9 : Model :=
  ⟨"w9", [⟨["a"], ["y"]⟩], [], [("y", U2)],
    fun _ => Except.ok [("successful", 77), ("y", 1)]⟩

/-- Fixture for the C10 witness: symbol map binds only `a`. -/
def mW10 : Model :=
  ⟨"w10", [⟨["b"], ["y"]⟩], [("a", "b")], [("y", U2)], fun _ => Except.ok []⟩

/-- Fixture refuting C7's universal in-place claim: the symbol map is
non-empty, so remapping builds a fresh dict and the caller's mapping keeps
its unit-carrying value. -/
def mAlias : Model :=
  ⟨"alias", [⟨["b"], ["y"]⟩], [("a", "b")], [("b", U0), ("y", U0)],
    fun _ => Except.ok [("y", 1)]⟩

/-- Fixture for the C7 witness: no symbol map, so stripping mutates the
caller's dict, converting the kilometre quantity to metres. -/
def mW7 : Model :=
  ⟨"w7", [⟨["p"], ["y"]⟩], [], [("p", U2), ("y", U2)], fun _ => Except.ok [("y", 1)]⟩

/-- Connection fixture shared by the C1 counterexample model. -/
def cBoom : Conn := ⟨["a"], ["y"]⟩

/-- Fixture refuting C1's universal claim: the input set matches the
connection but `plug_in` raises, so the result is a failure record rather
than a success keyed by the connection's outputs. -/
def mBoom : Model := ⟨"boom", [cBoom], [], [("y", U2)], fun _ => Except.error "boom"⟩

/-- Connection fixture for the C1 witness model. -/
def cW1 : Conn := ⟨["a"], ["y"]⟩

/-- Fixture for the C1 witness: a well-behaved `plug_in` producing exactly
the declared output. -/
def mW1 : Model := ⟨"w1", [cW1], [], [("y", U2)], fun _ => Except.ok [("y", 7)]⟩

/-- Fixture for the C4 witness: input `k` arrives in kilometres, the unit
map declares metres for both symbols. -/
def mW4 : Model :=
  ⟨"w4", [⟨["k"], ["k2"]⟩], [], [("k", U2), ("k2", U2)], fun _ => Except.ok [("k2", 9)]⟩

/-- C6 counterexample solver: sympy's `nonlinsolve` returning `EmptySet`,
whose `list(...)` is empty. -/
def solverEmptySet : List Expr → String → List (List SymSol) := fun _ _ => []

/-- Equation fixture for the C6 counterexample: `x - t`. -/
def eqsCex : List Expr := [Expr.sub (Expr.var "x") (Expr.var "t")]

/-- Model fixture wiring the C6 counterexample equation model. -/
def mEqCex : Model := ⟨"eqcex", [⟨["x"], ["t"]⟩], [], [("t", U0)], eqPlugIn solverEmptySet eqsCex⟩

/-- Solver fixture for the C6 witness: no solution marker for `t`, a
numeric solution for every other symbol. -/
def solverW6 : List Expr → String → List (List SymSol) :=
  fun _ y => if y = "t" then [[SymSol.emptySet]] else [[SymSol.val 3]]

/-- Equation fixture for the C6 witness: `t - n`. -/
def eqsW6 : List Expr := [Expr.sub (Expr.var "t") (Expr.var "n")]

/-- The C5 callable: `lambda x: {"y": x["a"] + x["b"]}`. -/
def addCallable : List (String × ℚ) → Except String (List (String × ℚ)) := fun x =>
  match dictLookup x "a", dictLookup x "b" with
  | some a, some b => Except.ok [("y", a + b)]
  | _, _ => Except.error "KeyError"

/-- The C5 scenario model: a `PyModel` wiring `addCallable` to the single
connection `{inputs: [a, b], outputs: [y]}`. -/
def pyAddModel : Model := PyModel.init "add" [⟨["a", "b"], ["y"]⟩] addCallable []

theorem dictLookup_insert_self {α : Type} (l : List (String × α)) (k : String) (v : α) :
    dictLookup (dictInsert l k v) k = some v := by
  induction l with
  | nil => simp [dictInsert, dictLookup]
  | cons kv rest ih =>
    obtain ⟨k1, v1⟩ := kv
    by_cases h : k1 = k
    · simp [dictInsert, h, dictLookup]
    · simp [dictInsert, h, dictLookup, ih]

theorem dictLookup_insert_ne {α : Type} (l : List (String × α)) (k k' : String) (v : α)
    (h : k' ≠ k) : dictLookup (dictInsert l k v) k' = dictLookup l k' := by
  have hne : ¬ k = k' := fun he => h he.symm
  induction l with
  | nil => simp [dictInsert, dictLookup, hne]
  | cons kv rest ih =>
    obtain ⟨k1, v1⟩ := kv
    by_cases h1 : k1 = k
    · subst h1
      simp [dictInsert, dictLookup, hne]
    · by_cases h2 : k1 = k'
      · simp [dictInsert, h1, dictLookup, h2, h]
      · simp [dictInsert, h1, dictLookup, h2, ih]

theorem dictInsert_not_mem {α : Type} (l : List (String × α)) (k : String) (v : α)
    (h : k ∉ l.map Prod.fst) : dictInsert l k v = l ++ [(k, v)] := by
  induction l with
  | nil => simp [dictInsert]
  | cons kv rest ih =>
    obtain ⟨k1, v1⟩ := kv
    simp only [List.map, List.mem_cons] at h
    push_neg at h
    have hne : ¬ k1 = k := fun he => h.1 he.symm
    simp [dictInsert, hne, ih h.2]

theorem dictLookup_map_val {α β : Type} (l : List (String × α)) (f : α → β) (k : String) :
    dictLookup (l.map (fun kv => (kv.1, f kv.2))) k = (dictLookup l k).map f := by
  induction l with
  | nil => simp [dictLookup]
  | cons kv rest ih =>
    obtain ⟨k1, v1⟩ := kv
    by_cases h : k1 = k
    · simp [dictLookup, h]
    · simp [dictLookup, h, ih]

theorem dictLookup_mem_keys {α : Type} (l : List (String × α)) (k : String) (v : α)
    (h : dictLookup l k = some v) : k ∈ l.map Prod.fst := by
  induction l with
  | nil => simp [dictLookup] at h
  | cons kv rest ih =>
    obtain ⟨k1, v1⟩ := kv
    by_cases h1 : k1 = k
    · simp [h1]
    · simp only [dictLookup, if_neg h1] at h
      simp [ih h]

theorem stripDict_keys (um : List (String × UnitT)) (l : List (String × Value))
    (r : List (String × ℚ)) (h : stripDict um l = Except.ok r) :
    r.map Prod.fst = l.map Prod.fst := by
  induction l generalizing r with
  | nil =>
    simp only [stripDict] at h
    cases h
    rfl
  | cons kv rest ih =>
    simp only [stripDict] at h
    cases hsv : stripValue um kv.1 kv.2 with
    | error e => rw [hsv] at h; cases h
    | ok x =>
      rw [hsv] at h
      cases hr : stripDict um rest with
      | error e => rw [hr] at h; cases h
      | ok r2 =>
        rw [hr] at h
        cases h
        simp [ih r2 hr]

theorem stripDict_lookup (um : List (String × UnitT)) (l : List (String × Value))
    (r : List (String × ℚ)) (k : String) (v : Value)
    (hs : stripDict um l = Except.ok r) (hl : dictLookup l k = some v) :
    ∃ x, stripValue um k v = Except.ok x ∧ dictLookup r k = some x := by
  induction l generalizing r with
  | nil => simp [dictLookup] at hl
  | cons kv rest ih =>
    obtain ⟨k1, v1⟩ := kv
    simp only [stripDict] at hs
    cases hsv : stripValue um k1 v1 with
    | error e => rw [hsv] at hs; cases hs
    | ok x =>
      rw [hsv] at hs
      cases hr : stripDict um rest with
      | error e => rw [hr] at hs; cases hs
      | ok r2 =>
        rw [hr] at hs
        cases hs
        by_cases hk : k1 = k
        · subst hk
          simp only [dictLookup, if_pos rfl] at hl
          cases hl
          exact ⟨x, hsv, by simp [dictLookup]⟩
        · simp only [dictLookup, if_neg hk] at hl
          obtain ⟨x2, hx2, hlk⟩ := ih r2 hr hl
          exact ⟨x2, hx2, by simp [dictLookup, hk, hlk]⟩

theorem stripInPlace_of_ok (um : List (String × UnitT)) (l : List (String × Value))
    (r : List (String × ℚ)) (h : stripDict um l = Except.ok r) :
    stripInPlace um l = r.map (fun kv => (kv.1, Value.raw kv.2)) := by
  induction l generalizing r with
  | nil =>
    simp only [stripDict] at h
    cases h
    rfl
  | cons kv rest ih =>
    obtain ⟨k1, v1⟩ := kv
    simp only [stripDict] at h
    cases hsv : stripValue um k1 v1 with
    | error e => rw [hsv] at h; cases h
    | ok x =>
      rw [hsv] at h
      cases hr : stripDict um rest with
      | error e => rw [hr] at h; cases h
      | ok r2 =>
        rw [hr] at h
        cases h
        simp [stripInPlace, hsv, ih r2 hr]

theorem wrapOutputs_keys (um : List (String × UnitT)) (l r : List (String × RVal))
    (h : wrapOutputs um l = Except.ok r) : r.map Prod.fst = l.map Prod.fst := by
  induction l generalizing r with
  | nil =>
    simp only [wrapOutputs] at h
    cases h
    rfl
  | cons kv rest ih =>
    simp only [wrapOutputs] at h
    by_cases h1 : kv.1 = "successful"
    · rw [if_pos h1] at h
      cases hr : wrapOutputs um rest with
      | error e => rw [hr] at h; cases h
      | ok r2 =>
        rw [hr] at h
        cases h
        simp [ih r2 hr]
    · rw [if_neg h1] at h
      cases hu : dictLookup um kv.1 with
      | none => rw [hu] at h; cases h
      | some u =>
        rw [hu] at h
        cases hr : wrapOutputs um rest with
        | error e => rw [hr] at h; cases h
        | ok r2 =>
          rw [hr] at h
          cases h
          simp [ih r2 hr]

theorem wrapOutputs_lookup_successful (um : List (String × UnitT)) (l r : List (String × RVal))
    (h : wrapOutputs um l = Except.ok r) :
    dictLookup r "successful" = dictLookup l "successful" := by
  induction l generalizing r with
  | nil =>
    simp only [wrapOutputs] at h
    cases h
    rfl
  | cons kv rest ih =>
    simp only [wrapOutputs] at h
    by_cases h1 : kv.1 = "successful"
    · rw [if_pos h1] at h
      cases hr : wrapOutputs um rest with
      | error e => rw [hr] at h; cases h
      | ok r2 =>
        rw [hr] at h
        cases h
        obtain ⟨k1, v1⟩ := kv
        simp only at h1
        subst h1
        simp [dictLookup]
    · rw [if_neg h1] at h
      cases hu : dictLookup um kv.1 with
      | none => rw [hu] at h; cases h
      | some u =>
        rw [hu] at h
        cases hr : wrapOutputs um rest with
        | error e => rw [hr] at h; cases h
        | ok r2 =>
          rw [hr] at h
          cases h
          simp [dictLookup, h1, ih r2 hr]

theorem wrapOutputs_ok_of_cov (um : List (String × UnitT)) (l : List (String × RVal))
    (hcov : ∀ kv ∈ l, kv.1 ≠ "successful" → (dictLookup um kv.1).isSome = true) :
    ∃ r, wrapOutputs um l = Except.ok r := by
  induction l with
  | nil => exact ⟨[], rfl⟩
  | cons kv rest ih =>
    obtain ⟨r, hr⟩ := ih (fun kv2 h2 => hcov kv2 (List.mem_cons_of_mem _ h2))
    by_cases h1 : kv.1 = "successful"
    · exact ⟨kv :: r, by simp [wrapOutputs, h1, hr, Except.map]⟩
    · have hs := hcov kv (List.mem_cons_self _ _) h1
      obtain ⟨u, hu⟩ := Option.isSome_iff_exists.mp hs
      refine ⟨(kv.1, match kv.2 with | RVal.num x => RVal.q x u | v => v) :: r, ?_⟩
      simp [wrapOutputs, h1, hu, hr, Except.map]

theorem wrapOutputs_lookup (um : List (String × UnitT)) (l r : List (String × RVal))
    (k : String) (v : RVal) (h : wrapOutputs um l = Except.ok r)
    (hk : k ≠ "successful") (hv : dictLookup r k = some v) :
    ∃ orig u, dictLookup l k = some orig ∧ dictLookup um k = some u ∧
      v = (match orig with | RVal.num x => RVal.q x u | o => o) := by
  induction l generalizing r with
  | nil =>
    simp only [wrapOutputs] at h
    cases h
    simp [dictLookup] at hv
  | cons kv rest ih =>
    simp only [wrapOutputs] at h
    by_cases h1 : kv.1 = "successful"
    · rw [if_pos h1] at h
      cases hr : wrapOutputs um rest with
      | error e => rw [hr] at h; cases h
      | ok r2 =>
        rw [hr] at h
        cases h
        have hne : kv.1 ≠ k := by rw [h1]; exact fun he => hk he.symm
        obtain ⟨k1, v1⟩ := kv
        simp only [dictLookup, if_neg hne] at hv
        obtain ⟨orig, u, h3, h4, h5⟩ := ih r2 hr hv
        exact ⟨orig, u, by simp [dictLookup, hne, h3], h4, h5⟩
    · rw [if_neg h1] at h
      cases hu : dictLookup um kv.1 with
      | none => rw [hu] at h; cases h
      | some u =>
        rw [hu] at h
        cases hr : wrapOutputs um rest with
        | error e => rw [hr] at h; cases h
        | ok r2 =>
          rw [hr] at h
          cases h
          by_cases hke : kv.1 = k
          · subst hke
            simp only [dictLookup, if_pos rfl] at hv
            cases hv
            exact ⟨kv.2, u, by simp [dictLookup], hu, rfl⟩
          · simp only [dictLookup, if_neg hke] at hv
            obtain ⟨orig, u2, h3, h4, h5⟩ := ih r2 hr hv
            exact ⟨orig, u2, by simp [dictLookup, hke, h3], h4, h5⟩

theorem sameKeySet_symm (a b : List String) (h : sameKeySet a b) : sameKeySet b a :=
  ⟨h.2, h.1⟩

theorem remapPairs_keyError {α : Type} (sm : List (String × String))
    (svd : List (String × α)) (k : String) (hk : k ∈ svd.map Prod.fst)
    (hmiss : dictLookup sm k = none) : isKeyError (remapPairs sm svd) = true := by
  induction svd with
  | nil => simp at hk
  | cons kv rest ih =>
    cases hlk : dictLookup sm kv.1 with
    | none => simp [remapPairs, hlk, isKeyError]
    | some k2 =>
      have hkr : k ∈ rest.map Prod.fst := by
        rcases List.mem_cons.mp hk with he | hm
        · exfalso
          rw [he] at hmiss
          rw [hmiss] at hlk
          cases hlk
        · exact hm
      have htail := ih hkr
      cases hre : remapPairs sm rest with
      | error e =>
        rw [hre] at htail
        simp only [remapPairs, hlk, hre]
        simpa [Except.map, isKeyError] using htail
      | ok r =>
        rw [hre] at htail
        simp [isKeyError] at htail

theorem isKeyError_remapDict {α : Type} (sm : List (String × String))
    (svd : List (String × α)) (h : isKeyError (remapPairs sm svd) = true) :
    isKeyError (remapDict sm svd) = true := by
  cases hre : remapPairs sm svd with
  | error e =>
    rw [hre] at h
    simp only [remapDict, hre]
    simpa [Except.map, isKeyError] using h
  | ok r =>
    rw [hre] at h
    simp [isKeyError] at h

theorem eqSolveLoop_spec (solver : List Expr → String → List (List SymSol))
    (eqns : List Expr) (cands : List String) :
    ∀ acc : List (String × ℚ),
      (∀ y ∈ cands, (firstSol (solver eqns y)).isSome = true) →
      ∃ res, eqSolveLoop solver eqns acc cands = Except.ok res ∧
        ∀ x, dictLookup acc x = none →
          firstSol (solver eqns x) = some SymSol.emptySet → dictLookup res x = none := by
  induction cands with
  | nil => exact fun acc _ => ⟨acc, rfl, fun x hx _ => hx⟩
  | cons y rest ih =>
    intro acc h
    have hy := h y (List.mem_cons_self _ _)
    cases hsy : solver eqns y with
    | nil => rw [hsy] at hy; simp [firstSol] at hy
    | cons tup tups =>
      cases tup with
      | nil => rw [hsy] at hy; simp [firstSol] at hy
      | cons sol sols =>
        have hrest : ∀ z ∈ rest, (firstSol (solver eqns z)).isSome = true :=
          fun z hz => h z (List.mem_cons_of_mem _ hz)
        cases sol with
        | emptySet =>
          obtain ⟨res, hres, hprop⟩ := ih acc hrest
          exact ⟨res, by simp [eqSolveLoop, hsy, hres], hprop⟩
        | val v =>
          obtain ⟨res, hres, hprop⟩ := ih (dictInsert acc y v) hrest
          refine ⟨res, by simp [eqSolveLoop, hsy, hres], ?_⟩
          intro x hx hmk
          have hxy : x ≠ y := by
            intro he
            subst he
            rw [hsy] at hmk
            simp [firstSol] at hmk
          refine hprop x ?_ hmk
          rw [dictLookup_insert_ne _ _ _ _ hxy]
          exact hx

theorem dictAddAll_fresh {α : Type} (l : List (String × α)) :
    ∀ acc : List (String × α), (l.map Prod.fst).Nodup →
      (∀ k ∈ l.map Prod.fst, k ∉ acc.map Prod.fst) →
      dictAddAll acc l = acc ++ l := by
  induction l with
  | nil => intro acc _ _; simp [dictAddAll]
  | cons kv rest ih =>
    intro acc hnd hfresh
    obtain ⟨k1, v1⟩ := kv
    simp only [List.map, List.nodup_cons] at hnd
    have hins : dictInsert acc k1 v1 = acc ++ [(k1, v1)] :=
      dictInsert_not_mem _ _ _ (hfresh k1 (by simp))
    have hrest : ∀ k ∈ rest.map Prod.fst, k ∉ (acc ++ [(k1, v1)]).map Prod.fst := by
      intro k hk
      simp only [List.map_append, List.mem_append]
      rintro (hm | hm)
      · exact hfresh k (by simp [hk]) hm
      · simp at hm
        rw [hm] at hk
        exact hnd.1 hk
    calc dictAddAll acc ((k1, v1) :: rest)
        = dictAddAll (acc ++ [(k1, v1)]) rest := by simp [dictAddAll, hins]
      _ = (acc ++ [(k1, v1)]) ++ rest := ih _ hnd.2 hrest
      _ = acc ++ ((k1, v1) :: rest) := by simp

theorem dictLookup_map_key {α : Type} (g : String → String) (l : List (String × α))
    (k : String) (v : α) (hnd : (l.map (fun kv => g kv.1)).Nodup)
    (h : dictLookup l k = some v) :
    dictLookup (l.map (fun kv => (g kv.1, kv.2))) (g k) = some v := by
  induction l with
  | nil => simp [dictLookup] at h
  | cons kv rest ih =>
    obtain ⟨k1, v1⟩ := kv
    simp only [List.map, List.nodup_cons] at hnd
    by_cases hk : k1 = k
    · subst hk
      simp only [dictLookup, if_pos rfl] at h
      cases h
      simp [dictLookup]
    · simp only [dictLookup, if_neg hk] at h
      have hkm : k ∈ rest.map Prod.fst := dictLookup_mem_keys _ _ _ h
      have hgne : ¬ g k1 = g k := by
        intro he
        apply hnd.1
        rw [he]
        obtain ⟨kv2, hkv2, hfst⟩ := List.mem_map.mp hkm
        exact List.mem_map.mpr ⟨kv2, hkv2, by rw [hfst]⟩
      simp [dictLookup, hgne, ih hnd.2 h]

theorem failMessage_ne_empty (n : String) (l : List String) : failMessage n l ≠ "" := by
  intro h
  have h2 := congrArg String.length h
  simp [failMessage, String.length_append] at h2
  exact absurd h2.1.1.1 (by decide)

/-- C3: for every model and every input mapping that (after remapping and
stripping) matches some connection's input set, if `plug_in` raises an
exception with text `msg`, then `evaluate` returns the structured record
`{'successful': False, 'message': msg}` and does not itself raise. -/
theorem evaluate_catches_plug_in_exception (m : Model) (svd : List (String × Value))
    (svd2 : List (String × ℚ)) (msg : String)
    (hpre : preprocess m svd = Except.ok svd2)
    (hmatch : inputMatches m (svd2.map Prod.fst) = true)
    (herr : m.plug_in svd2 = Except.error msg) :
    evaluate m svd = Except.ok (failRecord msg) := by
  simp [evaluate, hpre, hmatch, herr]

/-- C3 witness: the caught-exception path evaluated on a concrete model. -/
theorem evaluate_catches_plug_in_exception_witness :
    evaluate mW3 [("a", Value.raw 1)] = Except.ok (failRecord "singular matrix") :=
  evaluate_catches_plug_in_exception mW3 [("a", Value.raw 1)] [("a", 1)]
    "singular matrix" rfl (by decide) rfl

/-- C2: for every model and every input mapping whose remapped, stripped key
set equals no connection's input set, `evaluate` returns
`successful = False` with the non-empty diagnostic message naming the model
and the available input set, and the result does not depend on `plug_in`
(which is never invoked). -/
theorem evaluate_no_matching_input_set_fails (m : Model) (svd : List (String × Value))
    (svd2 : List (String × ℚ))
    (hpre : preprocess m svd = Except.ok svd2)
    (hnomatch : ∀ c ∈ m.connections, ¬ sameKeySet c.inputs (svd2.map Prod.fst)) :
    evaluate m svd = Except.ok (failRecord (failMessage m.name (svd2.map Prod.fst))) ∧
    failMessage m.name (svd2.map Prod.fst) ≠ "" ∧
    ∀ g, evaluate (Model.mk m.name m.connections m.symbol_map m.unit_map g) svd =
      evaluate m svd := by
  have hm : inputMatches m (svd2.map Prod.fst) = false := by
    rw [inputMatches, List.any_eq_false]
    intro c hc
    simpa using hnomatch c hc
  refine ⟨by simp [evaluate, hpre, hm], failMessage_ne_empty _ _, ?_⟩
  intro g
  have hpre2 : preprocess (Model.mk m.name m.connections m.symbol_map m.unit_map g) svd =
      Except.ok svd2 := hpre
  have hm2 : inputMatches (Model.mk m.name m.connections m.symbol_map m.unit_map g)
      (svd2.map Prod.fst) = false := hm
  simp [evaluate, hpre, hpre2, hm, hm2]

/-- C2 witness: supplying a strict subset of the supported input set yields
the structured failure, with the same result under a replaced `plug_in`. -/
theorem evaluate_no_matching_input_set_fails_witness :
    evaluate mW2 [("a", Value.raw 1)] =
      Except.ok (failRecord (failMessage "w2" ["a"])) ∧
    failMessage "w2" ["a"] ≠ "" ∧
    evaluate (Model.mk "w2" [⟨["a", "b"], ["y"]⟩] [] [("y", U2)]
        (fun _ => Except.error "never called")) [("a", Value.raw 1)] =
      evaluate mW2 [("a", Value.raw 1)] := by
  have h := evaluate_no_matching_input_set_fails mW2 [("a", Value.raw 1)] [("a", 1)]
    rfl (by decide)
  exact ⟨h.1, h.2.1, h.2.2 (fun _ => Except.error "never called")⟩

/-- C9: every dictionary `evaluate` returns (the success path and both
failure paths) binds `successful` to a boolean; on the success path the
binding is `True` even when `plug_in`'s own result contained a
`successful` key, which is overwritten. -/
theorem evaluate_result_has_boolean_successful (m : Model) (svd : List (String × Value))
    (res : List (String × RVal)) (hres : evaluate m svd = Except.ok res) :
    isBoolVal (dictLookup res "successful") = true ∧
    (∀ svd2 out, preprocess m svd = Except.ok svd2 →
      inputMatches m (svd2.map Prod.fst) = true →
      m.plug_in svd2 = Except.ok out →
      dictLookup res "successful" = some (RVal.b true)) := by
  cases hp : preprocess m svd with
  | error e => simp [evaluate, hp] at hres
  | ok svd2 =>
    by_cases hm : inputMatches m (svd2.map Prod.fst) = true
    · cases hpo : m.plug_in svd2 with
      | error e =>
        simp only [evaluate, hp, hm, if_true, hpo] at hres
        cases hres
        refine ⟨rfl, ?_⟩
        intro svd2' out hp' hm' hpo'
        cases hp'
        rw [hpo] at hpo'
        cases hpo'
      | ok out =>
        simp only [evaluate, hp, hm, if_true, hpo] at hres
        have hsucc : dictLookup res "successful" = some (RVal.b true) := by
          rw [wrapOutputs_lookup_successful _ _ _ hres]
          exact dictLookup_insert_self _ _ _
        exact ⟨by rw [hsucc]; rfl, fun _ _ _ _ _ => hsucc⟩
    · have hm' : inputMatches m (svd2.map Prod.fst) = false := by
        simpa using hm
      simp only [evaluate, hp, hm', if_false] at hres
      cases hres
      refine ⟨rfl, ?_⟩
      intro svd2' out hp' hmm hpo'
      cases hp'
      rw [hmm] at hm'
      cases hm'

/-- C9 witness: the success path on a concrete model whose `plug_in` result
already contains a `successful` key. -/
theorem evaluate_result_has_boolean_successful_witness :
    isBoolVal (dictLookup [("successful", RVal.b true), ("y", RVal.q 1 U2)] "successful") =
      true ∧
    dictLookup [("successful", RVal.b true), ("y", RVal.q 1 U2)] "successful" =
      some (RVal.b true) := by
  have h := evaluate_result_has_boolean_successful mW9 [("a", Value.raw 4)]
    [("successful", RVal.b true), ("y", RVal.q 1 U2)] (by decide)
  exact ⟨h.1, h.2 [("a", 4)] [("successful", 77), ("y", 1)] rfl (by decide) rfl⟩

/-- C10: for every model with a non-empty symbol map, an input mapping
containing a key the symbol map does not bind makes `evaluate` raise a
`KeyError` (the remapping comprehension indexes the symbol map directly,
before the failure boundary) instead of returning a `successful: False`
record. -/
theorem evaluate_missing_symbol_map_key_raises (m : Model) (svd : List (String × Value))
    (k : String) (hsm : m.symbol_map ≠ []) (hk : k ∈ svd.map Prod.fst)
    (hmiss : dictLookup m.symbol_map k = none) :
    isKeyError (evaluate m svd) = true := by
  have h1 : isKeyError (remapDict m.symbol_map svd) = true :=
    isKeyError_remapDict _ _ (remapPairs_keyError _ _ _ hk hmiss)
  cases hsml : m.symbol_map with
  | nil => exact absurd hsml hsm
  | cons a as =>
    rw [hsml] at h1
    cases hrd : remapDict (a :: as) svd with
    | ok r =>
      rw [hrd] at h1
      simp [isKeyError] at h1
    | error e =>
      rw [hrd] at h1
      have hpre : preprocess m svd = Except.error e := by
        simp [preprocess, postRemap, hsml, hrd]
      cases e with
      | keyError k2 => simp [evaluate, hpre, isKeyError]
      | dimensionalityError => simp [isKeyError] at h1

/-- C10 witness: an input keyed by unmapped `c` makes `evaluate` raise. -/
theorem evaluate_missing_symbol_map_key_raises_witness :
    isKeyError (evaluate mW10 [("c", Value.raw 1)]) = true :=
  evaluate_missing_symbol_map_key_raises mW10 [("c", Value.raw 1)] "c"
    (by decide) (by decide) (by decide)

/-- C7 counterexample: a call through a non-empty symbol map returns
normally yet leaves the caller's mapping unmodified — the unit-carrying
value is not replaced by its bare magnitude. -/
theorem caller_mapping_claim_counterexample :
    callerAfter mAlias [("a", Value.qty 5 U0)] = [("a", Value.qty 5 U0)] ∧
    exOk (evaluate mAlias [("a", Value.qty 5 U0)]) = true := by
  constructor
  · rfl
  · rfl

/-- C7 (amended): the remap-and-strip rewrite mutates the caller's mapping
object exactly when the symbol map is absent or empty — then unit-carrying
values are replaced in place by the stripped magnitudes `evaluate` goes on
to use; with a non-empty symbol map the caller's mapping is left
unmodified. -/
theorem caller_mapping_mutation_depends_on_symbol_map (m : Model)
    (svd : List (String × Value)) :
    (m.symbol_map = [] → ∀ l, stripDict m.unit_map svd = Except.ok l →
      callerAfter m svd = l.map (fun kv => (kv.1, Value.raw kv.2))) ∧
    (m.symbol_map ≠ [] → callerAfter m svd = svd) ∧
    (m.symbol_map = [] → preprocess m svd = stripDict m.unit_map svd) := by
  refine ⟨?_, ?_, ?_⟩
  · intro hsm l hstrip
    rw [callerAfter, hsm]
    exact stripInPlace_of_ok _ _ _ hstrip
  · intro hsm
    cases hsml : m.symbol_map with
    | nil => exact absurd hsml hsm
    | cons a as => rw [callerAfter, hsml]
  · intro hsm
    rw [preprocess, postRemap, hsm]

/-- C7 witness: both directions of the amended claim on concrete models. -/
theorem caller_mapping_mutation_witness :
    callerAfter mW7 [("p", Value.qty 8 U1)] =
      ([("p", (8000 : ℚ))].map (fun kv => (kv.1, Value.raw kv.2))) ∧
    callerAfter mAlias [("a", Value.qty 5 U0)] = [("a", Value.qty 5 U0)] ∧
    preprocess mW7 [("p", Value.qty 8 U1)] =
      stripDict mW7.unit_map [("p", Value.qty 8 U1)] := by
  have h1 := caller_mapping_mutation_depends_on_symbol_map mW7 [("p", Value.qty 8 U1)]
  have h2 := caller_mapping_mutation_depends_on_symbol_map mAlias [("a", Value.qty 5 U0)]
  have hq : (8 : ℚ) * U1.scale / U2.scale = 8000 := by norm_num [U1, U2]
  have hstrip : stripDict mW7.unit_map [("p", Value.qty 8 U1)] =
      Except.ok [("p", (8 : ℚ) * U1.scale / U2.scale)] := rfl
  rw [hq] at hstrip
  exact ⟨h1.1 rfl [("p", (8000 : ℚ))] hstrip, h2.2.1 (by decide), h1.2.2 rfl⟩

/-- C8: constructing a model with a non-empty symbol map and unit map
resolves every unit-map key through the symbol map once, at construction
(falling back to the original key when unmapped), and evaluation uses
exactly that resolved unit map. -/
theorem model_init_resolves_unit_map_once (n : String) (conns : List Conn)
    (sm : List (String × String)) (um : List (String × UnitT))
    (f : List (String × ℚ) → Except String (List (String × ℚ)))
    (hsm : sm ≠ []) (hum : um ≠ [])
    (hnd : (um.map (fun kv => remapKey sm kv.1)).Nodup) :
    (Model.init n conns sm um f).unit_map = remapUnitMapKeys sm um ∧
    (∀ k u, dictLookup um k = some u →
      dictLookup (Model.init n conns sm um f).unit_map (remapKey sm k) = some u) ∧
    (∀ svd, evaluate (Model.init n conns sm um f) svd =
      evaluate (Model.mk n conns sm (remapUnitMapKeys sm um) f) svd) := by
  have hinit : Model.init n conns sm um f =
      Model.mk n conns sm (remapUnitMapKeys sm um) f := by
    simp [Model.init, hsm, hum]
  refine ⟨by rw [hinit], ?_, fun svd => by rw [hinit]⟩
  intro k u hku
  rw [hinit]
  have hndk : ((um.map (fun kv => (remapKey sm kv.1, kv.2))).map Prod.fst).Nodup := by
    simpa [List.map_map, Function.comp] using hnd
  have hfold : remapUnitMapKeys sm um = um.map (fun kv => (remapKey sm kv.1, kv.2)) := by
    rw [remapUnitMapKeys]
    have h := dictAddAll_fresh (um.map (fun kv => (remapKey sm kv.1, kv.2))) [] hndk
      (by simp)
    simpa using h
  rw [hfold]
  exact dictLookup_map_key (remapKey sm) um k u hnd hku

/-- C8 witness: a concrete symbol map rewrites the mapped unit-map key and
keeps the unmapped one, and evaluation agrees with the resolved map. -/
theorem model_init_resolves_unit_map_once_witness :
    (Model.init "w8" [] [("a", "b")] [("a", U2), ("c", U1)]
        (fun _ => Except.ok [])).unit_map =
      remapUnitMapKeys [("a", "b")] [("a", U2), ("c", U1)] ∧
    dictLookup (Model.init "w8" [] [("a", "b")] [("a", U2), ("c", U1)]
        (fun _ => Except.ok [])).unit_map (remapKey [("a", "b")] "a") = some U2 ∧
    evaluate (Model.init "w8" [] [("a", "b")] [("a", U2), ("c", U1)]
        (fun _ => Except.ok [])) [("a", Value.raw 1)] =
      evaluate (Model.mk "w8" [] [("a", "b")]
        (remapUnitMapKeys [("a", "b")] [("a", U2), ("c", U1)])
        (fun _ => Except.ok [])) [("a", Value.raw 1)] := by
  have h := model_init_resolves_unit_map_once "w8" [] [("a", "b")]
    [("a", U2), ("c", U1)] (fun _ => Except.ok []) (by decide) (by decide) (by decide)
  exact ⟨h.1, h.2.1 "a" U2 (by decide), h.2.2 [("a", Value.raw 1)]⟩

/-- C1 counterexample: supplying exactly the connection's input set as raw
numbers yields `successful: False`, not a mapping keyed by the declared
outputs, because nothing constrains the model's `plug_in`. -/
theorem evaluate_success_keys_claim_counterexample :
    cBoom ∈ mBoom.connections ∧
    preprocess mBoom [("a", Value.raw 1)] = Except.ok [("a", (1 : ℚ))] ∧
    sameKeySet ([("a", (1 : ℚ))].map Prod.fst) cBoom.inputs ∧
    evaluate mBoom [("a", Value.raw 1)] = Except.ok (failRecord "boom") ∧
    dictLookup (failRecord "boom") "successful" = some (RVal.b false) := by
  exact ⟨by decide, rfl, by decide, rfl, rfl⟩

/-- C1 (amended): if the remapped, stripped inputs match a connection `c`
and `plug_in` returns without raising a mapping keyed exactly by `c`'s
declared outputs (none named `successful`), each covered by the unit map,
then `evaluate` succeeds with `successful: True` and its non-`successful`
keys are exactly `c`'s declared outputs. -/
theorem evaluate_success_keys_eq_connection_outputs (m : Model) (c : Conn)
    (svd : List (String × Value)) (svd2 out : List (String × ℚ))
    (hc : c ∈ m.connections)
    (hpre : preprocess m svd = Except.ok svd2)
    (hkeys : sameKeySet (svd2.map Prod.fst) c.inputs)
    (hplug : m.plug_in svd2 = Except.ok out)
    (houtk : sameKeySet (out.map Prod.fst) c.outputs)
    (hnos : "successful" ∉ out.map Prod.fst)
    (hcov : ∀ k ∈ out.map Prod.fst, (dictLookup m.unit_map k).isSome = true) :
    exOk (evaluate m svd) = true ∧
    ∀ res, evaluate m svd = Except.ok res →
      dictLookup res "successful" = some (RVal.b true) ∧
      sameKeySet ((res.map Prod.fst).filter (fun k => decide (k ≠ "successful")))
        c.outputs := by
  have hmatch : inputMatches m (svd2.map Prod.fst) = true := by
    rw [inputMatches, List.any_eq_true]
    exact ⟨c, hc, decide_eq_true (sameKeySet_symm _ _ hkeys)⟩
  have hkeysnum : (out.map (fun kv => (kv.1, RVal.num kv.2))).map Prod.fst
      = out.map Prod.fst := by
    simp
  have hnos2 : "successful" ∉ (out.map (fun kv => (kv.1, RVal.num kv.2))).map Prod.fst := by
    rw [hkeysnum]
    exact hnos
  have hli : dictInsert (out.map (fun kv => (kv.1, RVal.num kv.2))) "successful"
        (RVal.b true)
      = out.map (fun kv => (kv.1, RVal.num kv.2)) ++ [("successful", RVal.b true)] :=
    dictInsert_not_mem _ _ _ hnos2
  have hcovli : ∀ kv ∈ dictInsert (out.map (fun kv => (kv.1, RVal.num kv.2)))
      "successful" (RVal.b true), kv.1 ≠ "successful" →
      (dictLookup m.unit_map kv.1).isSome = true := by
    intro kv hkv hkne
    rw [hli] at hkv
    rcases List.mem_append.mp hkv with hm2 | hm2
    · obtain ⟨kv0, hkv0, heq⟩ := List.mem_map.mp hm2
      have hfst : kv.1 = kv0.1 := by rw [← heq]
      rw [hfst]
      exact hcov kv0.1 (List.mem_map.mpr ⟨kv0, hkv0, rfl⟩)
    · simp at hm2
      rw [hm2] at hkne
      exact absurd rfl hkne
  obtain ⟨r, hr⟩ := wrapOutputs_ok_of_cov m.unit_map _ hcovli
  have heval : evaluate m svd = Except.ok r := by
    simp only [evaluate, hpre, hmatch, if_true, hplug]
    exact hr
  refine ⟨by rw [heval]; rfl, ?_⟩
  intro res hres
  rw [heval] at hres
  cases hres
  constructor
  · rw [wrapOutputs_lookup_successful _ _ _ hr]
    exact dictLookup_insert_self _ _ _
  · have hrk := wrapOutputs_keys _ _ _ hr
    rw [hrk, hli]
    simp only [List.map_append]
    rw [List.filter_append, hkeysnum]
    have h1 : (out.map Prod.fst).filter (fun k => decide (k ≠ "successful"))
        = out.map Prod.fst :=
      List.filter_eq_self.mpr (fun k hk => decide_eq_true (fun he => hnos (he ▸ hk)))
    have h2 : (([("successful", RVal.b true)] : List (String × RVal)).map Prod.fst).filter
        (fun k => decide (k ≠ "successful")) = ([] : List String) := by decide
    rw [h1, h2, List.append_nil]
    exact houtk

/-- C1 witness: the amended success property on a concrete model. -/
theorem evaluate_success_keys_eq_connection_outputs_witness :
    exOk (evaluate mW1 [("a", Value.raw 5)]) = true ∧
    dictLookup [("y", RVal.q 7 U2), ("successful", RVal.b true)] "successful" =
      some (RVal.b true) ∧
    sameKeySet (([("y", RVal.q 7 U2), ("successful", RVal.b true)].map Prod.fst).filter
      (fun k => decide (k ≠ "successful"))) cW1.outputs := by
  have h := evaluate_success_keys_eq_connection_outputs mW1 cW1 [("a", Value.raw 5)]
    [("a", 5)] [("y", 7)] (by decide) rfl (by decide) rfl (by decide) (by decide)
    (by decide)
  have h2 := h.2 [("y", RVal.q 7 U2), ("successful", RVal.b true)] rfl
  exact ⟨h.1, h2.1, h2.2⟩

/-- C4: a unit-carrying input whose symbol has a unit-map entry is converted
to that declared unit and stripped to its bare magnitude in the dict handed
to `plug_in`; and every non-`successful` value of a successful result is a
quantity wrapped in exactly the unit map's declared unit for its key. -/
theorem evaluate_unit_convert_strip_and_rewrap (m : Model) :
    (∀ (svd1 : List (String × Value)) (l : List (String × ℚ)) (k : String) (mag : ℚ)
        (u target : UnitT),
      dictLookup m.unit_map k = some target →
      dictLookup svd1 k = some (Value.qty mag u) →
      stripDict m.unit_map svd1 = Except.ok l →
      u.dim = target.dim ∧ dictLookup l k = some (mag * u.scale / target.scale)) ∧
    (∀ (svd : List (String × Value)) (res : List (String × RVal)) (k : String) (v : RVal),
      evaluate m svd = Except.ok res →
      dictLookup res "successful" = some (RVal.b true) →
      k ≠ "successful" → dictLookup res k = some v →
      wrappedIn m.unit_map k v = true) := by
  constructor
  · intro svd1 l k mag u target htarget hsvd1 hstrip
    obtain ⟨x, hx, hlk⟩ := stripDict_lookup m.unit_map svd1 l k (Value.qty mag u)
      hstrip hsvd1
    simp only [stripValue, htarget] at hx
    by_cases hdim : u.dim = target.dim
    · rw [if_pos hdim] at hx
      cases hx
      exact ⟨hdim, hlk⟩
    · rw [if_neg hdim] at hx
      cases hx
  · intro svd res k v hres hsucc hkne hlk
    cases hp : preprocess m svd with
    | error e => simp [evaluate, hp] at hres
    | ok svd2 =>
      by_cases hm : inputMatches m (svd2.map Prod.fst) = true
      · cases hpo : m.plug_in svd2 with
        | error e =>
          simp only [evaluate, hp, hm, if_true, hpo] at hres
          cases hres
          rw [show dictLookup (failRecord e) "successful" = some (RVal.b false) from rfl]
            at hsucc
          simp at hsucc
        | ok out =>
          simp only [evaluate, hp, hm, if_true, hpo] at hres
          obtain ⟨orig, u, hliorig, hum, hv⟩ := wrapOutputs_lookup _ _ _ _ _ hres hkne hlk
          rw [dictLookup_insert_ne _ _ _ _ hkne, dictLookup_map_val] at hliorig
          cases ho : dictLookup out k with
          | none =>
            rw [ho] at hliorig
            cases hliorig
          | some x =>
            rw [ho] at hliorig
            simp only [Option.map_some'] at hliorig
            cases hliorig
            simp [wrappedIn, hum, hv]
      · have hm2 : inputMatches m (svd2.map Prod.fst) = false := by simpa using hm
        simp only [evaluate, hp, hm2, if_false] at hres
        cases hres
        rw [show dictLookup (failRecord (failMessage m.name (svd2.map Prod.fst)))
          "successful" = some (RVal.b false) from rfl] at hsucc
        simp at hsucc

/-- C4 witness: a kilometre input is converted to metres and stripped, and
the output is wrapped in the declared metre unit. -/
theorem evaluate_unit_convert_strip_and_rewrap_witness :
    U1.dim = U2.dim ∧
    dictLookup [("k", (6000 : ℚ))] "k" = some (6000 : ℚ) ∧
    wrappedIn mW4.unit_map "k2" (RVal.q 9 U2) = true := by
  have h := evaluate_unit_convert_strip_and_rewrap mW4
  have hq : (6 : ℚ) * U1.scale / U2.scale = 6000 := by norm_num [U1, U2]
  have hstrip : stripDict mW4.unit_map [("k", Value.qty 6 U1)] =
      Except.ok [("k", (6 : ℚ) * U1.scale / U2.scale)] := rfl
  rw [hq] at hstrip
  have h1 := h.1 [("k", Value.qty 6 U1)] [("k", (6000 : ℚ))] "k" 6 U1 U2 rfl rfl hstrip
  rw [hq] at h1
  have h2 := h.2 [("k", Value.qty 6 U1)]
    [("k2", RVal.q 9 U2), ("successful", RVal.b true)] "k2" (RVal.q 9 U2)
    rfl rfl (by decide) rfl
  exact ⟨h1.1, h1.2, h2⟩

/-- C6 counterexample: when the solver finds no solution for the only
candidate (it returns the empty solution set), `list(solutions)[0]` raises
an `IndexError`, so `plug_in` raises and the evaluation fails with
`successful: False` — the symbol is not silently omitted. -/
theorem eq_plug_in_empty_solution_set_counterexample :
    eqCandidates (eqsCex.map (subsExpr [("x", (2 : ℚ))])) = ["t"] ∧
    solverEmptySet (eqsCex.map (subsExpr [("x", (2 : ℚ))])) "t" = [] ∧
    eqPlugIn solverEmptySet eqsCex [("x", (2 : ℚ))] =
      Except.error "list index out of range" ∧
    evaluate mEqCex [("x", Value.raw 2)] =
      Except.ok (failRecord "list index out of range") := by
  exact ⟨rfl, rfl, rfl, rfl⟩

/-- C6 (amended): provided the solver returns a non-empty solution set with
a non-empty first tuple for every candidate, `plug_in` does not raise, and
every candidate whose first solution component is the `EmptySet` marker is
simply absent from the output mapping; a candidate with an empty solution
set instead raises an `IndexError` out of `plug_in` (see the
counterexample). -/
theorem eq_plug_in_no_solution_marker_omitted
    (solver : List Expr → String → List (List SymSol))
    (equations : List Expr) (svd : List (String × ℚ))
    (h : ∀ y ∈ eqCandidates (equations.map (subsExpr svd)),
      (firstSol (solver (equations.map (subsExpr svd)) y)).isSome = true) :
    exOk (eqPlugIn solver equations svd) = true ∧
    ∀ res x, eqPlugIn solver equations svd = Except.ok res →
      firstSol (solver (equations.map (subsExpr svd)) x) = some SymSol.emptySet →
      dictLookup res x = none := by
  obtain ⟨res0, hres0, hprop⟩ := eqSolveLoop_spec solver (equations.map (subsExpr svd))
    (eqCandidates (equations.map (subsExpr svd))) [] h
  constructor
  · simp only [eqPlugIn]
    rw [hres0]
    rfl
  · intro res x hres hmk
    simp only [eqPlugIn] at hres
    rw [hres0] at hres
    cases hres
    exact hprop x rfl hmk

/-- C6 witness: `t` (marker) is omitted while `plug_in` returns normally. -/
theorem eq_plug_in_no_solution_marker_omitted_witness :
    exOk (eqPlugIn solverW6 eqsW6 []) = true ∧
    dictLookup [("n", (3 : ℚ))] "t" = none := by
  have h := eq_plug_in_no_solution_marker_omitted solverW6 eqsW6 [] (by decide)
  exact ⟨h.1, h.2 [("n", (3 : ℚ))] "t" rfl rfl⟩

/-- C5: the `PyModel` scenario cannot return the specified
`{y: quantity(3), successful: True}`: `PyModel.__init__` accepts no
`unit_map`, leaving it empty, so the success path's unit re-attachment
`self.unit_map['y']` raises a `KeyError` that escapes `evaluate` — even
though the callable itself computes `1 + 2 = 3` successfully. -/
theorem py_model_unit_reattach_key_error :
    pyAddModel.unit_map = [] ∧
    pyAddModel.plug_in [("a", 1), ("b", 2)] = Except.ok [("y", (1 : ℚ) + 2)] ∧
    (1 : ℚ) + 2 = 3 ∧
    evaluate pyAddModel [("a", Value.raw 1), ("b", Value.raw 2)] =
      Except.error (PyErr.keyError "y") := by
  exact ⟨rfl, rfl, by norm_num, rfl⟩
